import Mathlib

/-!
Verification of the `rocksdb-utils-lookup` crate (files `src/utils.rs` and
`src/error.rs`) against its specification.

The storage engine (the `rocksdb` crate) is an external collaborator.  It is
modelled abstractly: option setters become field updates on an explicit record
of tuning knobs, the engine's per-poll answers to the two aggregate-property
queries become an oracle `Nat → PollResult`, time elapsing between polls
becomes an oracle `Nat → Nat` (extra milliseconds beyond the 100 ms sleep),
and the filesystem's directory listing becomes an explicit value carrying the
fallible per-entry results.  Nontermination of the unbounded wait loop is made
explicit with a fuel parameter; exhausting the fuel is reported as a distinct
`diverged` outcome, never as success.
-/

/-- Opaque engine-level error (`rocksdb::Error`), identified by its message. -/
abbrev RocksError := String

/-- Opaque filesystem-level error (`std::io::Error`), identified by its message. -/
abbrev IoError := String

/-- The error taxonomy of `src/error.rs` (`enum Error`).  `InvalidUtf8` carries
the undecodable raw bytes (Rust's `FromUtf8Error` retains the input bytes). -/
inductive Error where
  | Open (path : String) (e : RocksError)
  | PropertyAccess (e : RocksError)
  | PropertyNotSet (name : String)
  | ColumnFamily (name : String)
  | ReadData (e : RocksError)
  | WalRemoval (e : IoError)
  | UnknownColumnFamily
  | InvalidUtf8 (raw : List UInt8)
deriving DecidableEq

/-- Compression algorithms (`rocksdb::DBCompressionType`). -/
inductive DBCompressionType where
  | None | Snappy | Zlib | Bz2 | Lz4 | Lz4hc | Zstd
deriving DecidableEq

/-- Compaction styles (`rocksdb::DBCompactionStyle`). -/
inductive DBCompactionStyle where
  | Level | Universal | Fifo
deriving DecidableEq

/-- Index types of block-based tables (`rocksdb::BlockBasedIndexType`). -/
inductive BlockBasedIndexType where
  | BinarySearch | HashSearch | TwoLevelIndexSearch
deriving DecidableEq

/-- Bottommost-level compaction modes (`rocksdb::BottommostLevelCompaction`). -/
inductive BottommostLevelCompaction where
  | Skip | IfHaveCompactionFilter | Force | ForceOptimized
deriving DecidableEq

/-- Knobs of `rocksdb::BlockBasedOptions` touched by `tune_options`.
Signed C integers are `Int`, unsigned sizes are `Nat`; the bloom-filter
bits-per-key is an `f64` in the crate API but only ever receives the exact
value `10.0`, represented exactly as the rational `10`. -/
structure BlockBasedOptions where
  indexType : BlockBasedIndexType
  bloomFilter : Option (ℚ × Bool)
  partitionFilters : Bool
  metadataBlockSize : Nat
  cacheIndexAndFilterBlocks : Bool
  pinTopLevelIndexAndFilter : Bool
  pinL0FilterAndIndexBlocksInCache : Bool

/-- Engine defaults of `BlockBasedOptions::default()`; every field that any
claim depends on is overwritten by an explicit setter call in `tune_options`,
so the concrete default values are irrelevant to the theorems below. -/
def BlockBasedOptions.default : BlockBasedOptions :=
  { indexType := .BinarySearch
    bloomFilter := none
    partitionFilters := false
    metadataBlockSize := 4096
    cacheIndexAndFilterBlocks := false
    pinTopLevelIndexAndFilter := false
    pinL0FilterAndIndexBlocksInCache := false }

def BlockBasedOptions.set_index_type (o : BlockBasedOptions) (v : BlockBasedIndexType) :
    BlockBasedOptions :=
  { o with indexType := v }

def BlockBasedOptions.set_bloom_filter (o : BlockBasedOptions) (bitsPerKey : ℚ)
    (blockBased : Bool) : BlockBasedOptions :=
  { o with bloomFilter := some (bitsPerKey, blockBased) }

def BlockBasedOptions.set_partition_filters (o : BlockBasedOptions) (b : Bool) :
    BlockBasedOptions :=
  { o with partitionFilters := b }

def BlockBasedOptions.set_metadata_block_size (o : BlockBasedOptions) (n : Nat) :
    BlockBasedOptions :=
  { o with metadataBlockSize := n }

def BlockBasedOptions.set_cache_index_and_filter_blocks (o : BlockBasedOptions) (b : Bool) :
    BlockBasedOptions :=
  { o with cacheIndexAndFilterBlocks := b }

def BlockBasedOptions.set_pin_top_level_index_and_filter (o : BlockBasedOptions) (b : Bool) :
    BlockBasedOptions :=
  { o with pinTopLevelIndexAndFilter := b }

def BlockBasedOptions.set_pin_l0_filter_and_index_blocks_in_cache (o : BlockBasedOptions)
    (b : Bool) : BlockBasedOptions :=
  { o with pinL0FilterAndIndexBlocksInCache := b }

/-- Arguments of `Options::set_bottommost_compression_options`
(window bits, level, strategy, max dict bytes — all C ints). -/
structure BottommostCompressionArgs where
  windowBits : Int
  level : Int
  strategy : Int
  maxDictBytes : Int
deriving DecidableEq

/-- Knobs of `rocksdb::Options` touched by `tune_options`.  Each Rust setter
on the opaque options bag becomes an update of the corresponding field; knobs
the crate sets through compound convenience calls (`prepare_for_bulk_load`,
`optimize_level_style_compaction`, `optimize_for_point_lookup`,
`increase_parallelism`) are recorded as their own fields, since their engine-
side expansion is internal to the external collaborator. -/
structure Options where
  createIfMissing : Bool
  createMissingColumnFamilies : Bool
  preparedForBulkLoad : Bool
  maxBackgroundJobs : Int
  maxSubcompactions : Nat
  parallelism : Option Int
  levelStyleCompactionMemtableBudget : Option Nat
  minWriteBufferNumber : Int
  minWriteBufferNumberToMerge : Int
  writeBufferSize : Nat
  targetFileSizeBase : Nat
  compactionStyle : DBCompactionStyle
  walDir : Option String
  compressionPerLevel : Option (List DBCompressionType)
  bottommostCompressionArgs : Option (BottommostCompressionArgs × Bool)
  bottommostCompressionType : Option DBCompressionType
  bottommostZstdMaxTrainBytes : Option (Int × Bool)
  pointLookupBlockCacheSize : Option Nat
  blockBasedTableFactory : Option BlockBasedOptions

def Options.create_if_missing (o : Options) (b : Bool) : Options :=
  { o with createIfMissing := b }

def Options.create_missing_column_families (o : Options) (b : Bool) : Options :=
  { o with createMissingColumnFamilies := b }

def Options.prepare_for_bulk_load (o : Options) : Options :=
  { o with preparedForBulkLoad := true }

def Options.set_max_background_jobs (o : Options) (n : Int) : Options :=
  { o with maxBackgroundJobs := n }

def Options.set_max_subcompactions (o : Options) (n : Nat) : Options :=
  { o with maxSubcompactions := n }

def Options.increase_parallelism (o : Options) (n : Int) : Options :=
  { o with parallelism := some n }

def Options.optimize_level_style_compaction (o : Options) (budget : Nat) : Options :=
  { o with levelStyleCompactionMemtableBudget := some budget }

def Options.set_min_write_buffer_number (o : Options) (n : Int) : Options :=
  { o with minWriteBufferNumber := n }

def Options.set_min_write_buffer_number_to_merge (o : Options) (n : Int) : Options :=
  { o with minWriteBufferNumberToMerge := n }

def Options.set_write_buffer_size (o : Options) (n : Nat) : Options :=
  { o with writeBufferSize := n }

def Options.set_target_file_size_base (o : Options) (n : Nat) : Options :=
  { o with targetFileSizeBase := n }

def Options.set_compaction_style (o : Options) (s : DBCompactionStyle) : Options :=
  { o with compactionStyle := s }

def Options.set_wal_dir (o : Options) (d : String) : Options :=
  { o with walDir := some d }

def Options.set_compression_per_level (o : Options) (l : List DBCompressionType) : Options :=
  { o with compressionPerLevel := some l }

def Options.set_bottommost_compression_options (o : Options) (w lv strat dict : Int)
    (enabled : Bool) : Options :=
  { o with bottommostCompressionArgs := some (⟨w, lv, strat, dict⟩, enabled) }

def Options.set_bottommost_compression_type (o : Options) (t : DBCompressionType) : Options :=
  { o with bottommostCompressionType := some t }

def Options.set_bottommost_zstd_max_train_bytes (o : Options) (n : Int) (enabled : Bool) :
    Options :=
  { o with bottommostZstdMaxTrainBytes := some (n, enabled) }

def Options.optimize_for_point_lookup (o : Options) (cacheSize : Nat) : Options :=
  { o with pointLookupBlockCacheSize := some cacheSize }

def Options.set_block_based_table_factory (o : Options) (b : BlockBasedOptions) : Options :=
  { o with blockBasedTableFactory := some b }

/-- Shallow embedding of `tune_options` (src/utils.rs), setter call for setter
call in source order. -/
def tune_options (options : Options) (wal_dir : Option String) : Options :=
  let options := options.create_if_missing true
  let options := options.create_missing_column_families true
  let options := options.prepare_for_bulk_load
  let options := options.set_max_background_jobs 16
  let options := options.set_max_subcompactions 8
  let options := options.increase_parallelism 8
  let options := options.optimize_level_style_compaction (1 <<< 30)
  let options := options.set_min_write_buffer_number 1
  let options := options.set_min_write_buffer_number_to_merge 1
  let options := options.set_write_buffer_size (1 <<< 30)
  let options := options.set_target_file_size_base (1 <<< 30)
  let options := options.set_compaction_style .Universal
  let options := match wal_dir with
    | some wal_dir => options.set_wal_dir wal_dir
    | none => options
  let options := options.set_compression_per_level []
  let options := options.set_bottommost_compression_options (-14) 10 0 (1 <<< 14) true
  let options := options.set_bottommost_compression_type .Zstd
  let options := options.set_bottommost_zstd_max_train_bytes (1 <<< 22) true
  let options := options.optimize_for_point_lookup (1 <<< 26)
  let block_opts := BlockBasedOptions.default
  let block_opts := block_opts.set_index_type .TwoLevelIndexSearch
  let block_opts := block_opts.set_bloom_filter 10 false
  let block_opts := block_opts.set_partition_filters true
  let block_opts := block_opts.set_metadata_block_size 4096
  let block_opts := block_opts.set_cache_index_and_filter_blocks true
  let block_opts := block_opts.set_pin_top_level_index_and_filter true
  let block_opts := block_opts.set_pin_l0_filter_and_index_blocks_in_cache true
  options.set_block_based_table_factory block_opts

/-- C8: `tune_options` sets the stated bulk-load policy on every base
configuration, for either `wal_dir` argument: 16 background jobs, 8
sub-compactions, parallelism hint 8, minimum 1 write buffer and 1
buffer-to-merge, write buffer size `2^30` bytes, target file size base
`2^30` bytes, and universal compaction style. -/
theorem tune_options_bulk_load_policy (options : Options) (wal_dir : Option String) :
    (tune_options options wal_dir).maxBackgroundJobs = 16 ∧
    (tune_options options wal_dir).maxSubcompactions = 8 ∧
    (tune_options options wal_dir).parallelism = some 8 ∧
    (tune_options options wal_dir).minWriteBufferNumber = 1 ∧
    (tune_options options wal_dir).minWriteBufferNumberToMerge = 1 ∧
    (tune_options options wal_dir).writeBufferSize = 2 ^ 30 ∧
    (tune_options options wal_dir).targetFileSizeBase = 2 ^ 30 ∧
    (tune_options options wal_dir).compactionStyle = .Universal := by
  cases wal_dir <;>
    exact ⟨rfl, rfl, rfl, rfl, rfl, rfl, rfl, rfl⟩

/-- A column family handle, as resolved by `DB::cf_handle`; it is identified
by the name it was resolved from. -/
structure CfHandle where
  name : String
deriving DecidableEq

/-- The borrowed database handle (`rocksdb::DBWithThreadMode<MultiThreaded>`),
modelled by what the orchestrator and the metadata reader consume: the set of
column-family names that resolve to handles, the root path, and the engine's
answer to a single-key `get_cf` (column-family name and key to raw bytes,
absence, or an engine error). -/
structure DB where
  cfNames : List String
  rootPath : String
  getCf : String → String → Except RocksError (Option (List UInt8))

/-- `DB::cf_handle`: resolution by name, `none` when the column family does
not exist (no implicit creation). -/
def DB.cf_handle (db : DB) (name : String) : Option CfHandle :=
  if name ∈ db.cfNames then some ⟨name⟩ else none

/-- `rocksdb::CompactOptions` knobs touched by `force_compaction_cf`. -/
structure CompactOptions where
  exclusiveManualCompaction : Bool
  bottommostLevelCompaction : BottommostLevelCompaction
deriving DecidableEq

/-- Engine defaults of `CompactOptions::default()`; both tracked fields are
overwritten by explicit setter calls before use, so the concrete default
values are irrelevant to the theorems below. -/
def CompactOptions.default : CompactOptions :=
  { exclusiveManualCompaction := false
    bottommostLevelCompaction := .IfHaveCompactionFilter }

def CompactOptions.set_exclusive_manual_compaction (o : CompactOptions) (b : Bool) :
    CompactOptions :=
  { o with exclusiveManualCompaction := b }

def CompactOptions.set_bottommost_level_compaction (o : CompactOptions)
    (v : BottommostLevelCompaction) : CompactOptions :=
  { o with bottommostLevelCompaction := v }

/-- The single `CompactOptions` value built by `force_compaction_cf`:
default options with exclusive manual compaction and forced bottommost-level
compaction. -/
def compact_opt : CompactOptions :=
  (CompactOptions.default.set_exclusive_manual_compaction true).set_bottommost_level_compaction
    .Force

/-- One `compact_range_cf_opt` call: target column family, optional start and
end of the key range (`None, None` means the full range), and the compaction
options it was issued with. -/
structure CompactionRequest where
  cf : CfHandle
  rangeStart : Option (List UInt8)
  rangeEnd : Option (List UInt8)
  opts : CompactOptions
deriving DecidableEq

/-- The engine's answers to the two aggregate-property queries of one poll
iteration: `property_int_value(COMPACTION_PENDING)` and
`property_int_value(NUM_RUNNING_COMPACTIONS)`, each either an engine error,
"property not set" (`Ok(None)`), or a counter value. -/
structure PollResult where
  compactionPending : Except RocksError (Option Nat)
  numRunningCompactions : Except RocksError (Option Nat)

/-- One evaluation of the `while` condition of the wait loop, with Rust's
short-circuit `||`: query `COMPACTION_PENDING` first (an engine error maps to
`PropertyAccess`, an unset property to `PropertyNotSet "COMPACTION_PENDING"`);
only when it reads `0` is `NUM_RUNNING_COMPACTIONS` queried at all, with the
same error mapping.  `ok true` means the loop body runs again, `ok false`
means the loop exits. -/
def pollStep (p : PollResult) : Except Error Bool :=
  match p.compactionPending with
  | .error e => .error (.PropertyAccess e)
  | .ok none => .error (.PropertyNotSet "COMPACTION_PENDING")
  | .ok (some pending) =>
    if pending > 0 then .ok true
    else
      match p.numRunningCompactions with
      | .error e => .error (.PropertyAccess e)
      | .ok none => .error (.PropertyNotSet "NUM_RUNNING_COMPACTIONS")
      | .ok (some running) => .ok (running > 0)

/-- State carried across wait-loop iterations: the index of the next poll,
the wall clock in milliseconds since `compaction_start`, the `last_logged`
instant, and the progress notifications emitted so far (emission instant,
which also is the reported elapsed time, paired with the message text). -/
structure WaitState where
  idx : Nat
  now : Nat
  last_logged : Nat
  logs : List (Nat × String)
deriving DecidableEq

/-- The `Instant::now()` state at `compaction_start`: next poll 0, clock 0,
`last_logged` initialized to the start instant, no notifications yet. -/
def initWaitState : WaitState :=
  { idx := 0, now := 0, last_logged := 0, logs := [] }

/-- The text of one progress notification: the caller's message prelude
followed by the literal wait message with the total elapsed wait time. -/
def wait_msg (p : String) (elapsed : Nat) : String :=
  p ++ "still waiting for RocksDB compaction (since " ++ toString elapsed ++ ")"

/-- The wait loop of `force_compaction_cf`: evaluate the poll condition; on a
property failure stop with that error, on quiescence stop successfully,
otherwise sleep 100 ms (plus oracle-chosen extra schedule time `dur` for the
iteration), then — only when a message prelude was supplied — emit one
notification when more than 1000 ms of wall clock passed since `last_logged`,
resetting `last_logged` to the emission instant.  The fuel makes the
unbounded loop a total function: `none` means the fuel ran out with the
engine still busy. -/
def waitLoop (polls : Nat → PollResult) (dur : Nat → Nat) (waitMsg : Option String) :
    Nat → WaitState → WaitState × Option (Except Error Unit)
  | 0, st => (st, none)
  | fuel + 1, st =>
    match pollStep (polls st.idx) with
    | .error e => (st, some (.error e))
    | .ok false => (st, some (.ok ()))
    | .ok true =>
      let now' := st.now + 100 + dur st.idx
      match waitMsg with
      | none =>
        waitLoop polls dur none fuel
          { idx := st.idx + 1, now := now', last_logged := st.last_logged, logs := st.logs }
      | some p =>
        if 1000 < now' - st.last_logged then
          waitLoop polls dur (some p) fuel
            { idx := st.idx + 1, now := now', last_logged := now'
              logs := st.logs ++ [(now', wait_msg p now')] }
        else
          waitLoop polls dur (some p) fuel
            { idx := st.idx + 1, now := now', last_logged := st.last_logged, logs := st.logs }

/-- A directory entry of the WAL-cleanup scan (`std::fs::DirEntry`), with the
two fallible filesystem calls made on it recorded as oracle results:
`metadata()` (yielding the file length) and `remove_file()`. -/
structure DirEntry where
  name : String
  ext : Option String
  metadata : Except IoError Nat
  removeFile : Except IoError Unit

/-- How the WAL-cleanup scan ends: normally, with a typed error returned to
the caller, or with a thread panic (`expect`). -/
inductive WalStatus where
  | ok
  | err (e : Error)
  | panicked (msg : String)
deriving DecidableEq

/-- The `for entry in entries` loop of the WAL cleanup: a failed directory-
entry read panics via `expect("cannot read directory entry")`; for a readable
entry whose extension is `log` (short-circuit `&&`), a `metadata()` failure
aborts with `WalRemoval`, a zero length triggers `remove_file` (whose failure
also aborts with `WalRemoval`); every other entry is skipped.  Returns the
names of the files removed before the scan ended, in removal order. -/
def walScan : List (Except IoError DirEntry) → List String → List String × WalStatus
  | [], acc => (acc.reverse, .ok)
  | .error _ :: _, acc => (acc.reverse, .panicked "cannot read directory entry")
  | .ok e :: rest, acc =>
    if e.ext = some "log" then
      match e.metadata with
      | .error io => (acc.reverse, .err (.WalRemoval io))
      | .ok sz =>
        if sz = 0 then
          match e.removeFile with
          | .error io => (acc.reverse, .err (.WalRemoval io))
          | .ok _ => walScan rest (e.name :: acc)
        else walScan rest acc
    else walScan rest acc

/-- The `remove_empty_wal_files` block: `read_dir` on the database root
(failure maps to `WalRemoval`), then the per-entry scan. -/
def walCleanup (listing : Except IoError (List (Except IoError DirEntry))) :
    List String × WalStatus :=
  match listing with
  | .error e => ([], .err (.WalRemoval e))
  | .ok entries => walScan entries []

/-- The column-family resolution pass: `cf_names.map(|cf|
cf_handle(cf).ok_or(ColumnFamily(cf))).collect::<Result<Vec<_>, _>>()` —
resolve in caller order, stopping at the first name without a handle. -/
def resolveCfs (db : DB) : List String → Except Error (List CfHandle)
  | [] => .ok []
  | cf :: rest =>
    match db.cf_handle cf with
    | none => .error (.ColumnFamily cf)
    | some h =>
      match resolveCfs db rest with
      | .error e => .error e
      | .ok hs => .ok (h :: hs)

/-- How a `force_compaction_cf` run ends in the embedding: `Ok(())`, a typed
`Err`, a thread panic, or fuel exhaustion standing for the unbounded wait. -/
inductive Outcome where
  | ok
  | fail (e : Error)
  | panicked (msg : String)
  | diverged
deriving DecidableEq

/-- Everything observable about one `force_compaction_cf` run: how it ended,
the compaction requests issued to the engine in issuance order, the progress
notifications emitted, and the files removed by the WAL cleanup. -/
structure FcResult where
  outcome : Outcome
  requests : List CompactionRequest
  logs : List (Nat × String)
  removed : List String
deriving DecidableEq

/-- Shallow embedding of `force_compaction_cf` (src/utils.rs).  `polls`,
`dur` and `listing` are the engine/filesystem oracles described at the head
of the file; everything else follows the source: resolve all column families
(failing fast), issue one full-range request per handle with the shared
`compact_opt`, run the wait loop, and when `remove_empty_wal_files` is set
run the WAL cleanup. -/
def force_compaction_cf (db : DB) (cf_names : List String) (waitMsg : Option String)
    (remove_empty_wal_files : Bool) (polls : Nat → PollResult) (dur : Nat → Nat)
    (listing : Except IoError (List (Except IoError DirEntry))) (fuel : Nat) : FcResult :=
  match resolveCfs db cf_names with
  | .error e => { outcome := .fail e, requests := [], logs := [], removed := [] }
  | .ok cfs =>
    let reqs := cfs.map fun cf =>
      { cf := cf, rangeStart := none, rangeEnd := none, opts := compact_opt }
    match waitLoop polls dur waitMsg fuel initWaitState with
    | (st, none) => { outcome := .diverged, requests := reqs, logs := st.logs, removed := [] }
    | (st, some (.error e)) =>
      { outcome := .fail e, requests := reqs, logs := st.logs, removed := [] }
    | (st, some (.ok _)) =>
      if remove_empty_wal_files then
        match walCleanup listing with
        | (removed, .ok) =>
          { outcome := .ok, requests := reqs, logs := st.logs, removed := removed }
        | (removed, .err e) =>
          { outcome := .fail e, requests := reqs, logs := st.logs, removed := removed }
        | (removed, .panicked m) =>
          { outcome := .panicked m, requests := reqs, logs := st.logs, removed := removed }
      else { outcome := .ok, requests := reqs, logs := st.logs, removed := [] }

/-- Shallow embedding of `force_compaction` (src/utils.rs): `DB::list_cf`
and `DB::open_cf_with_opts` are external engine calls, modelled by the
oracles `list_cf` (the persisted column-family names, or an engine error)
and `open_db` (the opened handle, or an engine error); either failure maps
to `Open` with the path.  On success it delegates to `force_compaction_cf`
with the full discovered name list and `remove_empty_wal_files = true`. -/
def force_compaction (path : String) (list_cf : Except RocksError (List String))
    (open_db : Except RocksError DB) (waitMsg : Option String) (polls : Nat → PollResult)
    (dur : Nat → Nat) (listing : Except IoError (List (Except IoError DirEntry)))
    (fuel : Nat) : FcResult :=
  match list_cf with
  | .error e => { outcome := .fail (.Open path e), requests := [], logs := [], removed := [] }
  | .ok cf_names =>
    match open_db with
    | .error e => { outcome := .fail (.Open path e), requests := [], logs := [], removed := [] }
    | .ok db => force_compaction_cf db cf_names waitMsg true polls dur listing fuel

/-- UTF-8 decoding exactly as Rust's `String::from_utf8` validates it
(RFC 3629): ASCII passes through; leaders `C2..DF`, `E0..EF`, `F0..F4` take
one, two, three continuation bytes in `80..BF`; overlong encodings, surrogate
code points `D800..DFFF`, values above `10FFFF`, stray continuation bytes and
the invalid leaders `C0`, `C1`, `F5..FF` are all rejected. -/
def utf8DecodeList : List UInt8 → Option (List Char)
  | [] => some []
  | b0 :: rest =>
    let n0 := b0.toNat
    if n0 < 0x80 then
      (utf8DecodeList rest).map fun cs => Char.ofNat n0 :: cs
    else if n0 < 0xC2 then none
    else if n0 < 0xE0 then
      match rest with
      | b1 :: rest1 =>
        let n1 := b1.toNat
        if 0x80 ≤ n1 ∧ n1 < 0xC0 then
          (utf8DecodeList rest1).map fun cs =>
            Char.ofNat ((n0 - 0xC0) * 0x40 + (n1 - 0x80)) :: cs
        else none
      | [] => none
    else if n0 < 0xF0 then
      match rest with
      | b1 :: b2 :: rest2 =>
        let n1 := b1.toNat
        let n2 := b2.toNat
        let cp := (n0 - 0xE0) * 0x1000 + (n1 - 0x80) * 0x40 + (n2 - 0x80)
        if (0x80 ≤ n1 ∧ n1 < 0xC0) ∧ (0x80 ≤ n2 ∧ n2 < 0xC0) ∧
            0x800 ≤ cp ∧ (cp < 0xD800 ∨ 0xDFFF < cp) then
          (utf8DecodeList rest2).map fun cs => Char.ofNat cp :: cs
        else none
      | _ => none
    else if n0 < 0xF5 then
      match rest with
      | b1 :: b2 :: b3 :: rest3 =>
        let n1 := b1.toNat
        let n2 := b2.toNat
        let n3 := b3.toNat
        let cp := (n0 - 0xF0) * 0x40000 + (n1 - 0x80) * 0x1000 + (n2 - 0x80) * 0x40 + (n3 - 0x80)
        if (0x80 ≤ n1 ∧ n1 < 0xC0) ∧ (0x80 ≤ n2 ∧ n2 < 0xC0) ∧ (0x80 ≤ n3 ∧ n3 < 0xC0) ∧
            0x10000 ≤ cp ∧ cp ≤ 0x10FFFF then
          (utf8DecodeList rest3).map fun cs => Char.ofNat cp :: cs
        else none
      | _ => none
    else none

/-- `String::from_utf8` on raw bytes: the decoded text, or `none` on invalid
UTF-8. -/
def decodeUtf8 (raw : List UInt8) : Option String :=
  (utf8DecodeList raw).map fun cs => String.mk cs

/-- Shallow embedding of `fetch_meta` (src/utils.rs): resolve the column
family literally named `meta` (absence is `UnknownColumnFamily`), point-read
the key (an engine failure is `ReadData`, absence of a value is a successful
`none`), and decode a present value as UTF-8 (failure is `InvalidUtf8`
carrying the raw bytes). -/
def fetch_meta (db : DB) (key : String) : Except Error (Option String) :=
  match db.cf_handle "meta" with
  | none => .error .UnknownColumnFamily
  | some cf_meta =>
    match db.getCf cf_meta.name key with
    | .error e => .error (.ReadData e)
    | .ok none => .ok none
    | .ok (some raw_data) =>
      match decodeUtf8 raw_data with
      | some s => .ok (some s)
      | none => .error (.InvalidUtf8 raw_data)

/-- An entry of the cleanup scan is "clean" when every filesystem call the
scan makes on it succeeds: the entry itself is readable, and — only when its
extension is `log` — its metadata is readable, and — only when additionally
its size is zero — its removal succeeds. -/
def entryCleanB : Except IoError DirEntry → Bool
  | .error _ => false
  | .ok e =>
    if e.ext = some "log" then
      match e.metadata with
      | .error _ => false
      | .ok sz =>
        if sz = 0 then
          match e.removeFile with
          | .error _ => false
          | .ok _ => true
        else true
    else true

deriving instance DecidableEq for Except

/-- The file a clean scan removes for one entry: its name exactly when the
extension is `log` and the size is zero. -/
def walTarget : Except IoError DirEntry → Option String
  | .error _ => none
  | .ok e => if e.ext = some "log" ∧ e.metadata = .ok 0 then some e.name else none

/-- `spacedB l ts` holds when the instants `ts` each come more than 1000 ms
after the previous one, the first more than 1000 ms after `l`: at most one
instant falls in any one elapsed second. -/
def spacedB : Nat → List Nat → Bool
  | _, [] => true
  | l, t :: ts => decide (l + 1000 < t) && spacedB t ts

/-- Fixture: a database with one column family `cf` and no stored data. -/
def db0 : DB :=
  { cfNames := ["cf"], rootPath := "/db", getCf := fun _ _ => .ok none }

/-- Fixture: an engine that is already quiescent at every poll. -/
def quietPolls : Nat → PollResult :=
  fun _ => { compactionPending := .ok (some 0), numRunningCompactions := .ok (some 0) }

/-- Fixture: an engine that reports pending compaction work at every poll. -/
def busyPolls : Nat → PollResult :=
  fun _ => { compactionPending := .ok (some 1), numRunningCompactions := .ok (some 0) }

/-- Fixture: a schedule with no delay beyond the 100 ms sleep per iteration. -/
def zeroDur : Nat → Nat := fun _ => 0

/-- Helper: a resolved handle bears the name it was resolved from. -/
theorem cf_handle_name (db : DB) (n : String) (hh : CfHandle)
    (h : db.cf_handle n = some hh) : hh.name = n := by
  unfold DB.cf_handle at h
  split at h
  · cases h; rfl
  · cases h

/-- Helper: resolution fails with `ColumnFamily` at the first name, in
caller order, that has no handle. -/
theorem resolveCfs_first_unresolved (db : DB) :
    ∀ (l : List String) (bad : String),
      l.find? (fun n => (db.cf_handle n).isNone) = some bad →
      resolveCfs db l = .error (.ColumnFamily bad)
  | [], bad, h => by simp at h
  | cf :: rest, bad, h => by
    cases hcf : db.cf_handle cf with
    | none =>
      rw [List.find?_cons_of_pos _ (by simp [hcf])] at h
      cases h
      simp [resolveCfs, hcf]
    | some hh =>
      rw [List.find?_cons_of_neg _ (by simp [hcf])] at h
      have ih := resolveCfs_first_unresolved db rest bad h
      simp [resolveCfs, hcf, ih]

/-- Helper: successful resolution maps each requested name, in caller order,
to the handle bearing that name. -/
theorem resolveCfs_ok_names (db : DB) :
    ∀ (l : List String) (cfs : List CfHandle),
      resolveCfs db l = .ok cfs → cfs.map CfHandle.name = l
  | [], cfs, h => by
    simp [resolveCfs] at h
    simp [← h]
  | cf :: rest, cfs, h => by
    cases hcf : db.cf_handle cf with
    | none => simp [resolveCfs, hcf] at h
    | some hh =>
      cases hres : resolveCfs db rest with
      | error e => simp [resolveCfs, hcf, hres] at h
      | ok hs =>
        simp [resolveCfs, hcf, hres] at h
        have ih := resolveCfs_ok_names db rest hs hres
        simp [← h, ih, cf_handle_name db cf hh hcf]

/-- Helper: when the wait loop stops by itself, the returned state's poll
index points at the loop's final condition evaluation: the one that produced
the error, or read the loop out of its busy state. -/
theorem waitLoop_some_pollStep (polls : Nat → PollResult) (dur : Nat → Nat)
    (waitMsg : Option String) :
    ∀ (fuel : Nat) (st st' : WaitState) (r : Except Error Unit),
      waitLoop polls dur waitMsg fuel st = (st', some r) →
      pollStep (polls st'.idx) = (match r with | .error e => .error e | .ok _ => .ok false)
  | 0, st, st', r, h => by simp [waitLoop] at h
  | fuel + 1, st, st', r, h => by
    simp only [waitLoop] at h
    split at h
    · simp only [Prod.mk.injEq, Option.some.injEq] at h
      obtain ⟨h1, h2⟩ := h
      subst h1; subst h2
      assumption
    · simp only [Prod.mk.injEq, Option.some.injEq] at h
      obtain ⟨h1, h2⟩ := h
      subst h1; subst h2
      assumption
    · split at h
      · exact waitLoop_some_pollStep polls dur _ fuel _ st' r h
      · split at h
        · exact waitLoop_some_pollStep polls dur _ fuel _ st' r h
        · exact waitLoop_some_pollStep polls dur _ fuel _ st' r h

/-- Helper: the loop condition evaluates to "exit" exactly when both
aggregate counters read zero on that same evaluation. -/
theorem pollStep_ok_false (p : PollResult) (h : pollStep p = .ok false) :
    p.compactionPending = .ok (some 0) ∧ p.numRunningCompactions = .ok (some 0) := by
  unfold pollStep at h
  split at h
  · cases h
  · cases h
  · next pending hpending =>
    split at h
    · cases h
    · next hpos =>
      split at h
      · cases h
      · cases h
      · next running hrunning =>
        have hp0 : pending = 0 := by omega
        have hr0 : running = 0 := by
          simp only [Except.ok.injEq] at h
          by_contra hne
          rw [decide_eq_true (by omega : running > 0)] at h
          cases h
        subst hp0; subst hr0
        exact ⟨hpending, hrunning⟩

/-- Helper: every error of the loop condition is one of the four mapped
failures of the two property queries, with the short-circuit `||` only ever
querying the running-compactions counter after a zero pending counter. -/
theorem pollStep_error (p : PollResult) (err : Error) (h : pollStep p = .error err) :
    (∃ e, p.compactionPending = .error e ∧ err = .PropertyAccess e) ∨
    (p.compactionPending = .ok none ∧ err = .PropertyNotSet "COMPACTION_PENDING") ∨
    (∃ e, p.compactionPending = .ok (some 0) ∧ p.numRunningCompactions = .error e ∧
      err = .PropertyAccess e) ∨
    (p.compactionPending = .ok (some 0) ∧ p.numRunningCompactions = .ok none ∧
      err = .PropertyNotSet "NUM_RUNNING_COMPACTIONS") := by
  unfold pollStep at h
  split at h
  · next e he =>
    simp only [Except.error.injEq] at h
    exact Or.inl ⟨e, he, h.symm⟩
  · next hnone =>
    simp only [Except.error.injEq] at h
    exact Or.inr (Or.inl ⟨hnone, h.symm⟩)
  · next pending hpending =>
    split at h
    · cases h
    · next hpos =>
      have hp0 : pending = 0 := by omega
      subst hp0
      split at h
      · next e he =>
        simp only [Except.error.injEq] at h
        exact Or.inr (Or.inr (Or.inl ⟨e, hpending, he, h.symm⟩))
      · next hnone =>
        simp only [Except.error.injEq] at h
        exact Or.inr (Or.inr (Or.inr ⟨hpending, hnone, h.symm⟩))
      · cases h

/-- Helper: over entries whose filesystem calls all succeed, the scan ends
normally and removes exactly the names selected by `walTarget`, appended to
the accumulator, in directory order. -/
theorem walScan_clean :
    ∀ (entries : List (Except IoError DirEntry)) (acc : List String),
      (∀ x ∈ entries, entryCleanB x = true) →
      walScan entries acc = (acc.reverse ++ entries.filterMap walTarget, .ok)
  | [], acc, _ => by simp [walScan]
  | .error e :: rest, acc, h => by
    have he := h _ (List.mem_cons_self _ _)
    simp [entryCleanB] at he
  | .ok e :: rest, acc, h => by
    have hrest : ∀ x ∈ rest, entryCleanB x = true := fun x hx => h x (List.mem_cons_of_mem _ hx)
    have he := h _ (List.mem_cons_self _ _)
    by_cases hext : e.ext = some "log"
    · cases hmeta : e.metadata with
      | error io => simp [entryCleanB, hext, hmeta] at he
      | ok sz =>
        by_cases hsz : sz = 0
        · subst hsz
          cases hrf : e.removeFile with
          | error io => simp [entryCleanB, hext, hmeta, hrf] at he
          | ok u =>
            rw [walScan]
            simp only [hext, if_pos rfl, hmeta, if_pos rfl, hrf]
            rw [walScan_clean rest (e.name :: acc) hrest]
            simp [walTarget, hext, hmeta]
        · rw [walScan]
          simp only [hext, if_pos rfl, hmeta, if_neg hsz]
          rw [walScan_clean rest acc hrest]
          have : walTarget (.ok e) = none := by
            simp [walTarget, hmeta, hext]
            omega
          simp [List.filterMap_cons, this]
    · rw [walScan]
      simp only [if_neg hext]
      rw [walScan_clean rest acc hrest]
      have : walTarget (.ok e) = none := by simp [walTarget, hext]
      simp [List.filterMap_cons, this]

/-- Helper: entries whose filesystem calls all succeed are processed without
ending the scan, so the scan of any extension continues past them (with the
zero-length `log` files among them added to the accumulator). -/
theorem walScan_clean_append :
    ∀ (good : List (Except IoError DirEntry)) (l : List (Except IoError DirEntry))
      (acc : List String),
      (∀ x ∈ good, entryCleanB x = true) →
      ∃ acc2, walScan (good ++ l) acc = walScan l acc2
  | [], l, acc, _ => ⟨acc, rfl⟩
  | .error e :: rest, l, acc, h => by
    have he := h _ (List.mem_cons_self _ _)
    simp [entryCleanB] at he
  | .ok e :: rest, l, acc, h => by
    have hrest : ∀ x ∈ rest, entryCleanB x = true := fun x hx => h x (List.mem_cons_of_mem _ hx)
    have he := h _ (List.mem_cons_self _ _)
    by_cases hext : e.ext = some "log"
    · cases hmeta : e.metadata with
      | error io => simp [entryCleanB, hext, hmeta] at he
      | ok sz =>
        by_cases hsz : sz = 0
        · subst hsz
          cases hrf : e.removeFile with
          | error io => simp [entryCleanB, hext, hmeta, hrf] at he
          | ok u =>
            rw [List.cons_append, walScan]
            simp only [hext, if_pos rfl, hmeta, if_pos rfl, hrf]
            exact walScan_clean_append rest l (e.name :: acc) hrest
        · rw [List.cons_append, walScan]
          simp only [hext, if_pos rfl, hmeta, if_neg hsz]
          exact walScan_clean_append rest l acc hrest
    · rw [List.cons_append, walScan]
      simp only [if_neg hext]
      exact walScan_clean_append rest l acc hrest

/-- Helper: the outcome a `force_compaction_cf` run reports for each way the
WAL-cleanup scan can end. -/
def walStatusOutcome : WalStatus → Outcome
  | .ok => .ok
  | .err e => .fail e
  | .panicked m => .panicked m

/-- Helper: a resolution failure is returned at once: nothing is issued,
logged or removed. -/
theorem fc_resolve_error (db : DB) (cf_names : List String) (waitMsg : Option String)
    (rwal : Bool) (polls : Nat → PollResult) (dur : Nat → Nat)
    (listing : Except IoError (List (Except IoError DirEntry))) (fuel : Nat) (e : Error)
    (h : resolveCfs db cf_names = .error e) :
    force_compaction_cf db cf_names waitMsg rwal polls dur listing fuel =
      { outcome := .fail e, requests := [], logs := [], removed := [] } := by
  simp [force_compaction_cf, h]

/-- Helper: after successful resolution and a successful wait, a run with
WAL cleanup enabled reports the cleanup's outcome and removals, the issued
requests, and the wait loop's notifications. -/
theorem fc_wal (db : DB) (cf_names : List String) (waitMsg : Option String)
    (polls : Nat → PollResult) (dur : Nat → Nat)
    (listing : Except IoError (List (Except IoError DirEntry))) (fuel : Nat)
    (cfs : List CfHandle) (st : WaitState)
    (hres : resolveCfs db cf_names = .ok cfs)
    (hloop : waitLoop polls dur waitMsg fuel initWaitState = (st, some (.ok ()))) :
    force_compaction_cf db cf_names waitMsg true polls dur listing fuel =
      { outcome := walStatusOutcome (walCleanup listing).2
        requests := cfs.map fun cf =>
          { cf := cf, rangeStart := none, rangeEnd := none, opts := compact_opt }
        logs := st.logs
        removed := (walCleanup listing).1 } := by
  rcases hw : walCleanup listing with ⟨removed, status⟩
  cases status <;> simp [force_compaction_cf, hres, hloop, hw, walStatusOutcome]

/-- Helper: in every run, the requests issued are one full-range request per
resolved handle, in resolution order, sharing `compact_opt`. -/
theorem fc_requests (db : DB) (cf_names : List String) (waitMsg : Option String)
    (rwal : Bool) (polls : Nat → PollResult) (dur : Nat → Nat)
    (listing : Except IoError (List (Except IoError DirEntry))) (fuel : Nat)
    (cfs : List CfHandle)
    (hres : resolveCfs db cf_names = .ok cfs) :
    (force_compaction_cf db cf_names waitMsg rwal polls dur listing fuel).requests =
      cfs.map fun cf =>
        { cf := cf, rangeStart := none, rangeEnd := none, opts := compact_opt } := by
  unfold force_compaction_cf
  rw [hres]
  rcases hl : waitLoop polls dur waitMsg fuel initWaitState with ⟨st, r⟩
  match r with
  | none => rfl
  | some (.error e) => rfl
  | some (.ok u) =>
    cases rwal
    · rfl
    · rcases hw : walCleanup listing with ⟨removed, status⟩
      cases status <;> simp [hw]

/-- Helper: every successful run went through a successful wait-loop exit. -/
theorem fc_outcome_ok_loop (db : DB) (cf_names : List String) (waitMsg : Option String)
    (rwal : Bool) (polls : Nat → PollResult) (dur : Nat → Nat)
    (listing : Except IoError (List (Except IoError DirEntry))) (fuel : Nat)
    (h : (force_compaction_cf db cf_names waitMsg rwal polls dur listing fuel).outcome = .ok) :
    ∃ st, waitLoop polls dur waitMsg fuel initWaitState = (st, some (.ok ())) := by
  unfold force_compaction_cf at h
  rcases hres : resolveCfs db cf_names with e | cfs <;> rw [hres] at h
  · cases h
  · rcases hl : waitLoop polls dur waitMsg fuel initWaitState with ⟨st, r⟩
    rw [hl] at h
    match r with
    | none => cases h
    | some (.error e) => cases h
    | some (.ok u) => exact ⟨st, rfl⟩

/-- Helper: appending an instant more than 1000 ms after the last keeps the
instants spaced more than a second apart. -/
theorem spacedB_append :
    ∀ (ts : List Nat) (l t' : Nat), spacedB l ts = true → ts.getLastD l + 1000 < t' →
      spacedB l (ts ++ [t']) = true
  | [], l, t', _, hlt => by
    simp only [List.nil_append, spacedB, Bool.and_true]
    simpa using hlt
  | t :: ts, l, t', h, hlt => by
    simp only [spacedB, Bool.and_eq_true, decide_eq_true_eq] at h
    rw [List.getLastD_cons] at hlt
    simp only [List.cons_append, spacedB, Bool.and_eq_true, decide_eq_true_eq]
    exact ⟨h.1, spacedB_append ts t t' h.2 hlt⟩

/-- The wait-loop state invariant behind the notification cadence: the
emission instants are each more than 1000 ms apart (the first more than
1000 ms after `compaction_start`), `last_logged` is the most recent emission
instant (or the start), and every message is the wait message for its
emission instant. -/
def LogsInv (p : String) (st : WaitState) : Prop :=
  spacedB 0 (st.logs.map Prod.fst) = true ∧
  st.last_logged = (st.logs.map Prod.fst).getLastD 0 ∧
  ∀ x ∈ st.logs, x.2 = wait_msg p x.1

/-- Helper: every wait-loop iteration preserves the cadence invariant. -/
theorem waitLoop_logsInv (p : String) (polls : Nat → PollResult) (dur : Nat → Nat) :
    ∀ (fuel : Nat) (st : WaitState), LogsInv p st →
      LogsInv p (waitLoop polls dur (some p) fuel st).1
  | 0, st, h => h
  | fuel + 1, st, h => by
    simp only [waitLoop]
    split
    · exact h
    · exact h
    · split
      · next hlt =>
        apply waitLoop_logsInv p polls dur fuel
        obtain ⟨h1, h2, h3⟩ := h
        refine ⟨?_, ?_, ?_⟩
        · simp only [List.map_append, List.map_cons, List.map_nil]
          exact spacedB_append _ _ _ h1 (by omega)
        · simp only [List.map_append, List.map_cons, List.map_nil, List.getLastD_concat]
        · intro x hx
          rcases List.mem_append.mp hx with hx | hx
          · exact h3 x hx
          · simp only [List.mem_singleton] at hx
            subst hx
            rfl
      · apply waitLoop_logsInv p polls dur fuel
        exact h

/-- Helper: with no message prelude supplied, no iteration ever appends a
notification. -/
theorem waitLoop_none_logs (polls : Nat → PollResult) (dur : Nat → Nat) :
    ∀ (fuel : Nat) (st : WaitState), ((waitLoop polls dur none fuel st).1).logs = st.logs
  | 0, st => rfl
  | fuel + 1, st => by
    simp only [waitLoop]
    split
    · rfl
    · rfl
    · exact waitLoop_none_logs polls dur fuel _

/-- Helper: after successful resolution, the run's notifications are exactly
the wait loop's. -/
theorem fc_logs (db : DB) (cf_names : List String) (waitMsg : Option String) (rwal : Bool)
    (polls : Nat → PollResult) (dur : Nat → Nat)
    (listing : Except IoError (List (Except IoError DirEntry))) (fuel : Nat)
    (cfs : List CfHandle)
    (hres : resolveCfs db cf_names = .ok cfs) :
    (force_compaction_cf db cf_names waitMsg rwal polls dur listing fuel).logs =
      ((waitLoop polls dur waitMsg fuel initWaitState).1).logs := by
  unfold force_compaction_cf
  rw [hres]
  rcases hl : waitLoop polls dur waitMsg fuel initWaitState with ⟨st, r⟩
  match r with
  | none => rfl
  | some (.error e) => rfl
  | some (.ok u) =>
    cases rwal
    · rfl
    · rcases hw : walCleanup listing with ⟨removed, status⟩
      cases status <;> simp [hw]

/-- C1: whenever `force_compaction_cf` (or `force_compaction`, which
delegates to it) returns successfully, it did so by exiting its wait loop —
which has no maximum-wait timeout and no other success exit — and on the
final poll of that loop both aggregate counters, `COMPACTION_PENDING` and
`NUM_RUNNING_COMPACTIONS`, read exactly zero on the same poll. -/
theorem force_compaction_success_quiesced (db : DB) (cf_names : List String)
    (waitMsg : Option String) (rwal : Bool) (path : String)
    (list_cf : Except RocksError (List String)) (open_db : Except RocksError DB)
    (polls : Nat → PollResult) (dur : Nat → Nat)
    (listing : Except IoError (List (Except IoError DirEntry))) (fuel : Nat)
    (h : (force_compaction_cf db cf_names waitMsg rwal polls dur listing fuel).outcome = .ok ∨
         (force_compaction path list_cf open_db waitMsg polls dur listing fuel).outcome = .ok) :
    ∃ st, waitLoop polls dur waitMsg fuel initWaitState = (st, some (.ok ())) ∧
      (polls st.idx).compactionPending = .ok (some 0) ∧
      (polls st.idx).numRunningCompactions = .ok (some 0) := by
  have hloop : ∃ st, waitLoop polls dur waitMsg fuel initWaitState = (st, some (.ok ())) := by
    rcases h with h | h
    · exact fc_outcome_ok_loop _ _ _ _ _ _ _ _ h
    · unfold force_compaction at h
      rcases hlc : list_cf with e | names <;> rw [hlc] at h
      · cases h
      · rcases hod : open_db with e | db' <;> rw [hod] at h
        · cases h
        · exact fc_outcome_ok_loop _ _ _ _ _ _ _ _ h
  obtain ⟨st, hst⟩ := hloop
  have hps := waitLoop_some_pollStep polls dur waitMsg fuel initWaitState st (.ok ()) hst
  have hz := pollStep_ok_false _ hps
  exact ⟨st, hst, hz.1, hz.2⟩

/-- Witness for C1 at a concrete quiescent engine. -/
theorem force_compaction_success_quiesced_witness :
    ∃ st, waitLoop quietPolls zeroDur none 1 initWaitState = (st, some (.ok ())) ∧
      (quietPolls st.idx).compactionPending = .ok (some 0) ∧
      (quietPolls st.idx).numRunningCompactions = .ok (some 0) :=
  force_compaction_success_quiesced db0 ["cf"] none false "/db" (.ok ["cf"]) (.ok db0)
    quietPolls zeroDur (.ok []) 1 (Or.inl rfl)

/-- C2: a name list containing an unresolvable name makes
`force_compaction_cf` fail with `ColumnFamily` carrying the first such name
in the caller's iteration order, with no compaction request issued for any
name of the list. -/
theorem force_compaction_cf_unresolved_name (db : DB) (cf_names : List String)
    (waitMsg : Option String) (rwal : Bool) (polls : Nat → PollResult) (dur : Nat → Nat)
    (listing : Except IoError (List (Except IoError DirEntry))) (fuel : Nat) (bad : String)
    (h : cf_names.find? (fun n => (db.cf_handle n).isNone) = some bad) :
    force_compaction_cf db cf_names waitMsg rwal polls dur listing fuel =
      { outcome := .fail (.ColumnFamily bad), requests := [], logs := [], removed := [] } :=
  fc_resolve_error db cf_names waitMsg rwal polls dur listing fuel _
    (resolveCfs_first_unresolved db cf_names bad h)

/-- Witness for C2: a list with one resolvable and one missing name. -/
theorem force_compaction_cf_unresolved_name_witness :
    force_compaction_cf db0 ["cf", "missing"] none false quietPolls zeroDur (.ok []) 1 =
      { outcome := .fail (.ColumnFamily "missing"), requests := [], logs := []
        removed := [] } :=
  force_compaction_cf_unresolved_name db0 ["cf", "missing"] none false quietPolls zeroDur
    (.ok []) 1 "missing" (by decide)

/-- C4: on a successfully resolved list, the run issues exactly one
compaction request per resolved handle, in the caller's iteration order,
each over the unbounded key range and carrying the single shared
`compact_opt`, which has exclusive-manual semantics and bottommost-level
compaction forced; the requests do not depend on the wait (they are the same
for every poll schedule and fuel). -/
theorem force_compaction_cf_issues_requests (db : DB) (cf_names : List String)
    (waitMsg : Option String) (rwal : Bool) (polls : Nat → PollResult) (dur : Nat → Nat)
    (listing : Except IoError (List (Except IoError DirEntry))) (fuel : Nat)
    (cfs : List CfHandle)
    (hres : resolveCfs db cf_names = .ok cfs) :
    (force_compaction_cf db cf_names waitMsg rwal polls dur listing fuel).requests =
      (cfs.map fun cf =>
        { cf := cf, rangeStart := none, rangeEnd := none, opts := compact_opt }) ∧
    cfs.map CfHandle.name = cf_names ∧
    compact_opt =
      { exclusiveManualCompaction := true, bottommostLevelCompaction := .Force } :=
  ⟨fc_requests db cf_names waitMsg rwal polls dur listing fuel cfs hres,
   resolveCfs_ok_names db cf_names cfs hres, rfl⟩

/-- Witness for C4 at a concrete single-column-family database. -/
theorem force_compaction_cf_issues_requests_witness :
    (force_compaction_cf db0 ["cf"] none false quietPolls zeroDur (.ok []) 1).requests =
      ([CfHandle.mk "cf"].map fun cf =>
        { cf := cf, rangeStart := none, rangeEnd := none, opts := compact_opt }) ∧
    [CfHandle.mk "cf"].map CfHandle.name = ["cf"] ∧
    compact_opt =
      { exclusiveManualCompaction := true, bottommostLevelCompaction := .Force } :=
  force_compaction_cf_issues_requests db0 ["cf"] none false quietPolls zeroDur (.ok []) 1
    [CfHandle.mk "cf"] rfl

/-- Fixture: an engine whose pending-compactions property query fails. -/
def errPolls : Nat → PollResult :=
  fun _ => { compactionPending := .error "boom", numRunningCompactions := .ok (some 0) }

/-- C5: when a poll of the wait loop fails, the operation stops at that poll
and returns the failure to the caller: an engine-level query error surfaces
as `PropertyAccess` wrapping that error, an engine answer with no value as
`PropertyNotSet` carrying the property's name — with the running-compactions
counter only ever consulted on a poll whose pending counter read zero. -/
theorem force_compaction_cf_property_failure (db : DB) (cf_names : List String)
    (waitMsg : Option String) (rwal : Bool) (polls : Nat → PollResult) (dur : Nat → Nat)
    (listing : Except IoError (List (Except IoError DirEntry))) (fuel : Nat)
    (cfs : List CfHandle) (st : WaitState) (err : Error)
    (hres : resolveCfs db cf_names = .ok cfs)
    (hloop : waitLoop polls dur waitMsg fuel initWaitState = (st, some (.error err))) :
    (force_compaction_cf db cf_names waitMsg rwal polls dur listing fuel).outcome =
      .fail err ∧
    ((∃ e, (polls st.idx).compactionPending = .error e ∧ err = .PropertyAccess e) ∨
     ((polls st.idx).compactionPending = .ok none ∧
       err = .PropertyNotSet "COMPACTION_PENDING") ∨
     (∃ e, (polls st.idx).compactionPending = .ok (some 0) ∧
       (polls st.idx).numRunningCompactions = .error e ∧ err = .PropertyAccess e) ∨
     ((polls st.idx).compactionPending = .ok (some 0) ∧
       (polls st.idx).numRunningCompactions = .ok none ∧
       err = .PropertyNotSet "NUM_RUNNING_COMPACTIONS")) := by
  constructor
  · simp [force_compaction_cf, hres, hloop]
  · exact pollStep_error _ _
      (waitLoop_some_pollStep polls dur waitMsg fuel initWaitState st (.error err) hloop)

/-- Witness for C5: an engine whose first pending-counter query errors. -/
theorem force_compaction_cf_property_failure_witness :
    (force_compaction_cf db0 ["cf"] none false errPolls zeroDur (.ok []) 1).outcome =
      .fail (.PropertyAccess "boom") ∧
    ((∃ e, (errPolls initWaitState.idx).compactionPending = .error e ∧
        Error.PropertyAccess "boom" = .PropertyAccess e) ∨
     ((errPolls initWaitState.idx).compactionPending = .ok none ∧
       Error.PropertyAccess "boom" = .PropertyNotSet "COMPACTION_PENDING") ∨
     (∃ e, (errPolls initWaitState.idx).compactionPending = .ok (some 0) ∧
       (errPolls initWaitState.idx).numRunningCompactions = .error e ∧
       Error.PropertyAccess "boom" = .PropertyAccess e) ∨
     ((errPolls initWaitState.idx).compactionPending = .ok (some 0) ∧
       (errPolls initWaitState.idx).numRunningCompactions = .ok none ∧
       Error.PropertyAccess "boom" = .PropertyNotSet "NUM_RUNNING_COMPACTIONS")) :=
  force_compaction_cf_property_failure db0 ["cf"] none false errPolls zeroDur (.ok []) 1
    [CfHandle.mk "cf"] initWaitState (.PropertyAccess "boom") rfl rfl

/-- Helper: `walTarget` selects exactly the readable entries with the `log`
extension and zero length, yielding their names. -/
theorem walTarget_eq_some (x : Except IoError DirEntry) (n : String) :
    walTarget x = some n ↔
      ∃ de, x = Except.ok de ∧ n = de.name ∧ de.ext = some "log" ∧
        de.metadata = Except.ok 0 := by
  cases x with
  | error e => simp [walTarget]
  | ok de =>
    show (if de.ext = some "log" ∧ de.metadata = Except.ok 0 then some de.name else none)
        = some n ↔ _
    split
    · next hcond =>
      simp only [Option.some.injEq]
      constructor
      · intro hn
        exact ⟨de, rfl, hn.symm, hcond.1, hcond.2⟩
      · rintro ⟨de2, hde, hn, h1, h2⟩
        injection hde with hde2
        subst hde2
        exact hn.symm
    · next hcond =>
      constructor
      · intro h
        exact Option.noConfusion h
      · rintro ⟨de2, hde, hn, h1, h2⟩
        injection hde with hde2
        subst hde2
        exact absurd ⟨h1, h2⟩ hcond

/-- C3: with `remove_empty_wal_files = true` and a cooperating filesystem,
the run succeeds and removes exactly the directory entries whose extension
is the reserved WAL extension `log` and whose size is exactly zero; every
entry missing either condition — in particular a non-empty `log` file — is
not removed. -/
theorem force_compaction_cf_wal_cleanup (db : DB) (cf_names : List String)
    (waitMsg : Option String) (polls : Nat → PollResult) (dur : Nat → Nat) (fuel : Nat)
    (cfs : List CfHandle) (st : WaitState) (entries : List (Except IoError DirEntry))
    (hres : resolveCfs db cf_names = .ok cfs)
    (hloop : waitLoop polls dur waitMsg fuel initWaitState = (st, some (.ok ())))
    (hclean : ∀ x ∈ entries, entryCleanB x = true) :
    (force_compaction_cf db cf_names waitMsg true polls dur (.ok entries) fuel).outcome =
      .ok ∧
    (force_compaction_cf db cf_names waitMsg true polls dur (.ok entries) fuel).removed =
      entries.filterMap walTarget ∧
    ∀ n,
      n ∈ (force_compaction_cf db cf_names waitMsg true polls dur (.ok entries) fuel).removed
      ↔ ∃ de, Except.ok de ∈ entries ∧ n = de.name ∧ de.ext = some "log" ∧
          de.metadata = Except.ok 0 := by
  have hw : walCleanup (.ok entries) = (entries.filterMap walTarget, .ok) := by
    unfold walCleanup
    simpa using walScan_clean entries [] hclean
  have hfc := fc_wal db cf_names waitMsg polls dur (.ok entries) fuel cfs st hres hloop
  rw [hw] at hfc
  refine ⟨by rw [hfc]; rfl, by rw [hfc], ?_⟩
  intro n
  rw [hfc]
  show n ∈ entries.filterMap walTarget ↔ _
  simp only [List.mem_filterMap, walTarget_eq_some]
  constructor
  · rintro ⟨x, hx, de, rfl, hn, hext, hmeta⟩
    exact ⟨de, hx, hn, hext, hmeta⟩
  · rintro ⟨de, hde, hn, hext, hmeta⟩
    exact ⟨.ok de, hde, de, rfl, hn, hext, hmeta⟩

/-- Fixture: a directory with an empty WAL segment, a non-empty WAL segment
and an extensionless file, all of whose filesystem calls succeed. -/
def entries0 : List (Except IoError DirEntry) :=
  [.ok { name := "000001.log", ext := some "log", metadata := .ok 0, removeFile := .ok () },
   .ok { name := "000002.log", ext := some "log", metadata := .ok 5, removeFile := .ok () },
   .ok { name := "CURRENT", ext := none, metadata := .ok 0, removeFile := .ok () }]

/-- Witness for C3: only the empty `log` file of `entries0` is removed. -/
theorem force_compaction_cf_wal_cleanup_witness :
    (force_compaction_cf db0 ["cf"] none true quietPolls zeroDur (.ok entries0) 1).outcome =
      .ok ∧
    (force_compaction_cf db0 ["cf"] none true quietPolls zeroDur (.ok entries0) 1).removed =
      entries0.filterMap walTarget :=
  ⟨(force_compaction_cf_wal_cleanup db0 ["cf"] none quietPolls zeroDur 1 [CfHandle.mk "cf"]
      initWaitState entries0 rfl rfl (by decide)).1,
   (force_compaction_cf_wal_cleanup db0 ["cf"] none quietPolls zeroDur 1 [CfHandle.mk "cf"]
      initWaitState entries0 rfl rfl (by decide)).2.1⟩

/-- C10: during the WAL-cleanup scan, a failure to read a directory entry
from the directory iterator does not produce a typed error at all: it panics
the calling thread with `expect`'s message — whereas a failure of the
initial directory listing, of per-entry metadata retrieval (consulted only
for `log`-extension entries), or of file deletion each return the typed
`WalRemoval` error. -/
theorem force_compaction_cf_wal_failure_modes (db : DB) (cf_names : List String)
    (waitMsg : Option String) (polls : Nat → PollResult) (dur : Nat → Nat) (fuel : Nat)
    (cfs : List CfHandle) (st : WaitState)
    (hres : resolveCfs db cf_names = .ok cfs)
    (hloop : waitLoop polls dur waitMsg fuel initWaitState = (st, some (.ok ()))) :
    (∀ (e : IoError) (good rest : List (Except IoError DirEntry)),
      (∀ x ∈ good, entryCleanB x = true) →
      (force_compaction_cf db cf_names waitMsg true polls dur
        (.ok (good ++ .error e :: rest)) fuel).outcome =
        .panicked "cannot read directory entry") ∧
    (∀ (e : IoError),
      (force_compaction_cf db cf_names waitMsg true polls dur (.error e) fuel).outcome =
        .fail (.WalRemoval e)) ∧
    (∀ (io : IoError) (de : DirEntry) (good rest : List (Except IoError DirEntry)),
      (∀ x ∈ good, entryCleanB x = true) → de.ext = some "log" →
      de.metadata = .error io →
      (force_compaction_cf db cf_names waitMsg true polls dur
        (.ok (good ++ .ok de :: rest)) fuel).outcome = .fail (.WalRemoval io)) ∧
    (∀ (io : IoError) (de : DirEntry) (good rest : List (Except IoError DirEntry)),
      (∀ x ∈ good, entryCleanB x = true) → de.ext = some "log" → de.metadata = .ok 0 →
      de.removeFile = .error io →
      (force_compaction_cf db cf_names waitMsg true polls dur
        (.ok (good ++ .ok de :: rest)) fuel).outcome = .fail (.WalRemoval io)) := by
  refine ⟨?_, ?_, ?_, ?_⟩
  · intro e good rest hgood
    rw [fc_wal db cf_names waitMsg polls dur _ fuel cfs st hres hloop]
    show walStatusOutcome (walScan (good ++ .error e :: rest) []).2 = _
    obtain ⟨acc2, hacc⟩ := walScan_clean_append good (.error e :: rest) [] hgood
    rw [hacc]
    rfl
  · intro e
    rw [fc_wal db cf_names waitMsg polls dur _ fuel cfs st hres hloop]
    rfl
  · intro io de good rest hgood hext hmeta
    rw [fc_wal db cf_names waitMsg polls dur _ fuel cfs st hres hloop]
    show walStatusOutcome (walScan (good ++ .ok de :: rest) []).2 = _
    obtain ⟨acc2, hacc⟩ := walScan_clean_append good (.ok de :: rest) [] hgood
    rw [hacc]
    simp [walScan, hext, hmeta, walStatusOutcome]
  · intro io de good rest hgood hext hmeta hrf
    rw [fc_wal db cf_names waitMsg polls dur _ fuel cfs st hres hloop]
    show walStatusOutcome (walScan (good ++ .ok de :: rest) []).2 = _
    obtain ⟨acc2, hacc⟩ := walScan_clean_append good (.ok de :: rest) [] hgood
    rw [hacc]
    simp [walScan, hext, hmeta, hrf, walStatusOutcome]

/-- Witness for C10: a failing directory listing returns `WalRemoval`. -/
theorem force_compaction_cf_wal_failure_modes_witness :
    (force_compaction_cf db0 ["cf"] none true quietPolls zeroDur (.error "denied") 1).outcome =
      .fail (.WalRemoval "denied") :=
  (force_compaction_cf_wal_failure_modes db0 ["cf"] none quietPolls zeroDur 1
    [CfHandle.mk "cf"] initWaitState rfl rfl).2.1 "denied"

/-- C6: `fetch_meta` fails with `UnknownColumnFamily` when no column family
named exactly `meta` exists; when it exists but holds no value for the key,
the result is a successful "no value", not an error; and an engine-level
read failure surfaces as `ReadData`. -/
theorem fetch_meta_error_modes (db : DB) (key : String) :
    ("meta" ∉ db.cfNames → fetch_meta db key = .error .UnknownColumnFamily) ∧
    ("meta" ∈ db.cfNames → db.getCf "meta" key = .ok none →
      fetch_meta db key = .ok none) ∧
    (∀ e, "meta" ∈ db.cfNames → db.getCf "meta" key = .error e →
      fetch_meta db key = .error (.ReadData e)) := by
  refine ⟨?_, ?_, ?_⟩
  · intro h
    simp [fetch_meta, DB.cf_handle, h]
  · intro h hget
    simp [fetch_meta, DB.cf_handle, h, hget]
  · intro e h hget
    simp [fetch_meta, DB.cf_handle, h, hget]

/-- Witness for C6: a database without a `meta` column family. -/
theorem fetch_meta_error_modes_witness :
    fetch_meta db0 "gnomad-release" = .error .UnknownColumnFamily :=
  (fetch_meta_error_modes db0 "gnomad-release").1 (by decide)

/-- C7: a present value that is valid UTF-8 is returned decoded, wrapped as
present; a present value that is not valid UTF-8 makes `fetch_meta` fail
with `InvalidUtf8`. -/
theorem fetch_meta_utf8 (db : DB) (key : String) (raw : List UInt8) (s : String)
    (hcf : "meta" ∈ db.cfNames)
    (hget : db.getCf "meta" key = .ok (some raw)) :
    (decodeUtf8 raw = some s → fetch_meta db key = .ok (some s)) ∧
    (decodeUtf8 raw = none → fetch_meta db key = .error (.InvalidUtf8 raw)) := by
  constructor
  · intro hdec
    simp [fetch_meta, DB.cf_handle, hcf, hget, hdec]
  · intro hdec
    simp [fetch_meta, DB.cf_handle, hcf, hget, hdec]

/-- Fixture: a database whose `meta` column family stores the UTF-8 bytes of
`hi` under the key `gnomad-release`. -/
def dbMeta : DB :=
  { cfNames := ["meta"]
    rootPath := "/db"
    getCf := fun cf k =>
      if cf = "meta" ∧ k = "gnomad-release" then .ok (some [104, 105]) else .ok none }

/-- Witness for C7: the stored bytes decode to exactly `hi`. -/
theorem fetch_meta_utf8_witness :
    fetch_meta dbMeta "gnomad-release" = .ok (some "hi") :=
  (fetch_meta_utf8 dbMeta "gnomad-release" [104, 105] "hi" (by decide) (by decide)).1
    (by decide)

/-- C9 counterexample: in a concrete run with message prelude `msg` an
emitted notification reads `msgstill waiting for RocksDB compaction (since
1100)`, which is not the claimed shape `msgstill waiting for compaction
(since 1100)`: the code's message contains `RocksDB `, the claimed one does
not. -/
theorem force_compaction_cf_wait_msg_cex :
    (force_compaction_cf db0 ["cf"] (some "msg") false busyPolls zeroDur (.ok []) 12).logs =
      [(1100, "msgstill waiting for RocksDB compaction (since 1100)")] ∧
    "msgstill waiting for RocksDB compaction (since 1100)" ≠
      "msgstill waiting for compaction (since 1100)" :=
  ⟨by decide, by decide⟩

/-- C9 (amended): when a wait-message prelude is supplied, every progress
notification is the line `{prefix}still waiting for RocksDB compaction
(since {elapsed})` — containing the caller's prelude and the total elapsed
wait time — and the emission instants are spaced more than 1000 ms apart
starting from the wait's start, so at most one notification is emitted per
elapsed second of waiting; when no prelude is supplied, no notification is
ever emitted. -/
theorem force_compaction_cf_wait_notifications (db : DB) (cf_names : List String)
    (p : String) (rwal : Bool) (polls : Nat → PollResult) (dur : Nat → Nat)
    (listing : Except IoError (List (Except IoError DirEntry))) (fuel : Nat) :
    spacedB 0
      (((force_compaction_cf db cf_names (some p) rwal polls dur listing fuel).logs).map
        Prod.fst) = true ∧
    (∀ x ∈ (force_compaction_cf db cf_names (some p) rwal polls dur listing fuel).logs,
      x.2 = wait_msg p x.1) ∧
    (force_compaction_cf db cf_names none rwal polls dur listing fuel).logs = [] := by
  rcases hres : resolveCfs db cf_names with e | cfs
  · rw [fc_resolve_error db cf_names (some p) rwal polls dur listing fuel e hres,
      fc_resolve_error db cf_names none rwal polls dur listing fuel e hres]
    exact ⟨rfl, by simp, rfl⟩
  · have h1 := fc_logs db cf_names (some p) rwal polls dur listing fuel cfs hres
    have h2 := fc_logs db cf_names none rwal polls dur listing fuel cfs hres
    obtain ⟨ha, hb, hc⟩ :=
      waitLoop_logsInv p polls dur fuel initWaitState ⟨rfl, rfl, by simp [initWaitState]⟩
    refine ⟨?_, ?_, ?_⟩
    · rw [h1]
      exact ha
    · intro x hx
      rw [h1] at hx
      exact hc x hx
    · rw [h2, waitLoop_none_logs]
      rfl
